import Mathlib

/-!
Shallow embedding of the term-agent core (src/term_agent/agent.py): the
marker protocol writer, the transcript extractor, the smart summarizer and
the completion poller, together with theorems settling the spec claims.

Conventions of the embedding:
* Python strings are Lean `String` / `List Char`; file contents are raw
  strings split into lines exactly as f.readlines() does.
* Nondeterministic inputs of the source (the random marker id, the unix
  timestamp, the sequence of pane snapshots, wall-clock time) become
  explicit parameters; the polling clock is idealized so that the elapsed
  time before iteration k is k * poll_interval.
* Python regular expressions are embedded as executable character-level
  matchers for the exact patterns appearing in the source.
-/

/-- Python str whitespace membership, used by str.rstrip and by the
regex whitespace class in the prompt patterns. -/
def isPySpace (c : Char) : Bool :=
  c == ' ' || c == '\t' || c == '\n' || c == '\r' || c == '\x0b' || c == '\x0c'

/-- ASCII lowercasing, modelling the effect of re.IGNORECASE. -/
def toLow (c : Char) : Char :=
  if 'A' ≤ c ∧ c ≤ 'Z' then Char.ofNat (c.toNat + 32) else c

/-- Python substring containment (the `in` operator on str), on char lists. -/
def occursIn : List Char → List Char → Bool
  | sub, [] => sub.isEmpty
  | sub, c :: rest => sub.isPrefixOf (c :: rest) || occursIn sub rest

/-- Python str.rstrip(): remove trailing whitespace. -/
def rstripPy (s : String) : String :=
  String.mk ((s.toList.reverse.dropWhile isPySpace).reverse)

/-- Decimal digit character. -/
def digChar (d : ℕ) : Char :=
  if d = 0 then '0' else if d = 1 then '1' else if d = 2 then '2' else if d = 3 then '3'
  else if d = 4 then '4' else if d = 5 then '5' else if d = 6 then '6' else if d = 7 then '7'
  else if d = 8 then '8' else '9'

/-- Decimal digits of a natural number; fuel-structured so that it reduces
in the kernel (fuel n + 1 always suffices). -/
def natDigitsAux : ℕ → ℕ → List Char
  | 0, _ => []
  | fuel + 1, n => if n < 10 then [digChar n] else natDigitsAux fuel (n / 10) ++ [digChar (n % 10)]

/-- Python str() of a nonnegative int. -/
def natRepr (n : ℕ) : String := String.mk (natDigitsAux (n + 1) n)

/-- Python str() of an int; the summarizer formats len(lines) - 20, which
can be negative on short inputs. -/
def intRepr : ℤ → String
  | Int.ofNat n => natRepr n
  | Int.negSucc n => "-" ++ natRepr (n + 1)

/-- f.readlines() at the character level: split a stream into lines, the
newline terminators dropped (the source rstrips every region line anyway,
and no searched sentinel contains a newline). A trailing fragment without
a final newline is a line of its own; empty input has no lines. -/
def splitLines : List Char → List (List Char)
  | [] => []
  | c :: rest =>
    if c = '\n' then [] :: splitLines rest
    else
      match splitLines rest with
      | [] => [[c]]
      | l :: ls => (c :: l) :: ls

/-- f.readlines() on a Lean string. -/
def pyReadLines (s : String) : List String := (splitLines s.toList).map String.mk

/-- One left-to-right pass of re.sub for the source pattern
ESC ([at-sign..Z, backslash..underscore] | CSI): at each position, if the
escape sequence matches it is dropped and scanning resumes after it,
otherwise the character is kept.  Fuel-structured (fuel = input length
suffices, every step consumes at least one character). -/
def stripAnsiAux : ℕ → List Char → List Char
  | 0, l => l
  | _ + 1, [] => []
  | fuel + 1, c :: rest =>
    if c = '\x1b' then
      match rest with
      | '[' :: r2 =>
        let r3 := r2.dropWhile (fun d => decide (0x30 ≤ d.toNat ∧ d.toNat ≤ 0x3f))
        let r4 := r3.dropWhile (fun d => decide (0x20 ≤ d.toNat ∧ d.toNat ≤ 0x2f))
        match r4 with
        | f :: r5 =>
          if 0x40 ≤ f.toNat ∧ f.toNat ≤ 0x7e then stripAnsiAux fuel r5
          else '\x1b' :: stripAnsiAux fuel rest
        | [] => '\x1b' :: stripAnsiAux fuel rest
      | c2 :: r2 =>
        if (0x40 ≤ c2.toNat ∧ c2.toNat ≤ 0x5a) ∨ (0x5c ≤ c2.toNat ∧ c2.toNat ≤ 0x5f) then
          stripAnsiAux fuel r2
        else '\x1b' :: stripAnsiAux fuel rest
      | [] => ['\x1b']
    else c :: stripAnsiAux fuel rest

/-- _strip_ansi_codes: remove ANSI escape sequences. -/
def strip_ansi_codes (s : String) : String :=
  String.mk (stripAnsiAux s.toList.length s.toList)

/-- re.search of a literal pattern under re.IGNORECASE. -/
def reSearchCI (pat : String) (line : String) : Bool :=
  occursIn (pat.toList.map toLow) (line.toList.map toLow)

/-- ASCII decimal digit (regex backslash-d). -/
def isDigitCh (c : Char) : Bool := decide ('0' ≤ c ∧ c ≤ '9')

/-- After one digit of the first run: either more digits, or the second
colon followed by at least one digit. -/
def pAfterDigit : List Char → Bool
  | ':' :: c :: _ => isDigitCh c
  | c :: rest => isDigitCh c && pAfterDigit rest
  | [] => false

/-- First digit run of the colon-digits tail: at least one digit. -/
def pDigitsColon : List Char → Bool
  | c :: rest => isDigitCh c && pAfterDigit rest
  | [] => false

/-- The colon-digits-colon-digits tail of the stack-frame regex. -/
def pColonRun : List Char → Bool
  | ':' :: rest => pDigitsColon rest
  | _ => false

/-- dot-plus then the colon-digits tail: at least one non-newline character
before the first matched colon, scanning all split points. -/
def pDotPlusColon : List Char → Bool
  | [] => false
  | c :: rest => (c != '\n') && (pColonRun rest || pDotPlusColon rest)

/-- The stack-frame regex anchored at the current position: letters a t
(case-insensitive), a space, then dot-plus colon digits colon digits. -/
def jsStartsAt : List Char → Bool
  | a :: t :: s :: rest => toLow a == 'a' && toLow t == 't' && s == ' ' && pDotPlusColon rest
  | _ => false

/-- re.search for the stack-frame pattern anywhere in the line. -/
def jsErrMatch : List Char → Bool
  | [] => false
  | l@(_ :: rest) => jsStartsAt l || jsErrMatch rest

/-- The ordered error-signature list of _smart_extract_output, as
(matcher, label) pairs; every literal entry is searched case-insensitively
and the last entry embeds the stack-frame regex. -/
def error_patterns : List ((String → Bool) × String) :=
  [ (reSearchCI "Traceback (most recent call last)", "python_traceback"),
    (reSearchCI "Error:", "generic_error"),
    (reSearchCI "Exception:", "exception"),
    (reSearchCI "error:", "compilation_error"),
    (reSearchCI "FAILED", "test_failure"),
    (reSearchCI "AssertionError", "assertion_error"),
    (reSearchCI "SyntaxError", "syntax_error"),
    (reSearchCI "TypeError", "type_error"),
    (fun l => jsErrMatch l.toList, "javascript_error") ]

/-- Inner loop over the ordered signatures with break: the first signature
matching this line, if any. -/
def lineMatch (line : String) : Option String :=
  (error_patterns.find? (fun p => p.1 line)).map (fun p => p.2)

/-- Outer scan of _smart_extract_output: collect every matching line index,
record the label of the first match. -/
def scanLoop : List String → ℕ → List ℕ → Option String → List ℕ × Option String
  | [], _, idxs, ty => (idxs, ty)
  | l :: rest, i, idxs, ty =>
    match lineMatch l with
    | some t => scanLoop rest (i + 1) (idxs ++ [i]) (if ty = none then some t else ty)
    | none => scanLoop rest (i + 1) idxs ty

/-- error_indices and error_type of _smart_extract_output. -/
def errorScan (lines : List String) : List ℕ × Option String := scanLoop lines 0 [] none

/-- Context-window bounds for one matched index: start = max(0, i - 10)
(natural subtraction), end = min(len(lines), i + 20). -/
def rangeOf (lines : List String) (i : ℕ) : ℕ × ℕ :=
  (i - 10, min lines.length (i + 20))

/-- Python slice lines[s:e]. -/
def sliceOf (lines : List String) (r : ℕ × ℕ) : List String :=
  (lines.drop r.1).take (r.2 - r.1)

/-- The window-emission loop of the error path: seen_ranges set and the
extracted accumulator, exactly as in the source. -/
def errLoop (lines : List String) : List ℕ → List (ℕ × ℕ) → List String → List String
  | [], _, acc => acc
  | i :: rest, seen, acc =>
    let r := rangeOf lines i
    if r ∈ seen then errLoop lines rest seen acc
    else
      let acc2 := if acc ≠ [] ∧ acc.getLast? ≠ some "..." then acc ++ ["...", ""] else acc
      errLoop lines rest (r :: seen) (acc2 ++ sliceOf lines r)

/-- Python f-string rendering of the optional error label (None prints as
the word None). -/
def errorTypeStr : Option String → String
  | some t => t
  | none => "None"

/-- Result shape of _smart_extract_output. -/
structure SmartResult where
  lines : List String
  method : String
deriving DecidableEq

/-- _smart_extract_output: error-context extraction when any signature
matched, first-10 / last-10 otherwise. -/
def smart_extract_output (lines : List String) : SmartResult :=
  match errorScan lines with
  | (i0 :: irest, errorType) =>
    let base := errLoop lines (i0 :: irest) [] []
    let lastIdx := (i0 :: irest).getLast (List.cons_ne_nil i0 irest)
    let withTail :=
      if 20 < lines.length - lastIdx then
        base ++ "..." :: "" :: lines.drop (lines.length - 5)
      else base
    SmartResult.mk withTail ("error_extraction_" ++ errorTypeStr errorType)
  | ([], _) =>
    SmartResult.mk
      (lines.take 10 ++ "" ::
        ("... (" ++ intRepr ((lines.length : ℤ) - 20) ++ " lines omitted) ...") ::
        "" :: lines.drop (lines.length - 10))
      "first_last"

/-- Start sentinel with the marker id, the exact string searched with the
Python in operator. -/
def startMarkerStr (marker_id : String) : String :=
  "===TERM-AGENT-CMD-START=== " ++ marker_id

/-- End sentinel with the marker id. -/
def endMarkerStr (marker_id : String) : String :=
  "===TERM-AGENT-CMD-END=== " ++ marker_id

/-- Result dictionary of _read_output_from_marker; dictionary keys absent
from a given return site are modelled as none. -/
structure ExtractionResult where
  output : List String
  line_count : ℕ
  extraction_method : String
  truncated : Bool
  original_line_count : Option ℕ
  forced_full : Option Bool
  message : Option String
deriving DecidableEq

/-- The marker-search loop with break: index of the first line containing
the start sentinel for this id, counting from i. -/
def findMarkerAux (marker : String) : List String → ℕ → Option ℕ
  | [], _ => none
  | l :: rest, i =>
    if occursIn marker.toList l.toList then some i else findMarkerAux marker rest (i + 1)

/-- Index of the first transcript line containing the start sentinel. -/
def findMarker (lines : List String) (marker_id : String) : Option ℕ :=
  findMarkerAux (startMarkerStr marker_id) lines 0

/-- Per-line cleaning of the region: rstrip then ANSI removal. -/
def cleanLine (l : String) : String := strip_ansi_codes (rstripPy l)

/-- The region after the marker line: lines from start_idx up to (exclusive)
the first line containing the end sentinel, each cleaned. -/
def regionOf (lines : List String) (marker_id : String) (start_idx : ℕ) : List String :=
  ((lines.drop start_idx).takeWhile
      (fun l => !occursIn (endMarkerStr marker_id).toList l.toList)).map cleanLine

/-- Body of _read_output_from_marker once the file has been read into
lines. -/
def read_output_from_lines (lines : List String) (marker_id : String)
    (max_lines : ℕ) (force_full : Bool) : ExtractionResult :=
  match findMarker lines marker_id with
  | none => ExtractionResult.mk [] 0 "marker_not_found" false none none none
  | some i =>
    let output_lines := regionOf lines marker_id (i + 1)
    let line_count := output_lines.length
    if force_full = true ∨ line_count ≤ max_lines then
      ExtractionResult.mk output_lines line_count "full" false none (some force_full) none
    else
      let extracted := smart_extract_output output_lines
      ExtractionResult.mk extracted.lines line_count extracted.method true (some line_count)
        none
        (some ("Output has " ++ natRepr line_count ++ " lines, showing " ++
          natRepr extracted.lines.length ++ " relevant lines"))

/-- _read_output_from_marker: the transcript file is an optional raw string
(none models a missing file). -/
def read_output_from_marker (file : Option String) (marker_id : String)
    (max_lines : ℕ) (force_full : Bool) : ExtractionResult :=
  match file with
  | none => ExtractionResult.mk [] 0 "no_file" false none none none
  | some content => read_output_from_lines (pyReadLines content) marker_id max_lines force_full

/-- _write_command_marker as a pure transformation of the transcript
contents; the random marker id and the timestamp are parameters. -/
def write_command_marker (content : String) (marker_id : String)
    (timestamp : ℕ) (command : String) : String :=
  content ++ "\n" ++ startMarkerStr marker_id ++ " " ++ natRepr timestamp ++ " " ++
    command ++ "\n"

/-- Last non-whitespace character of a line together with the (reversed)
characters before it; none when the line is whitespace only. -/
def lastNonWs (l : List Char) : Option (Char × List Char) :=
  match l.reverse.dropWhile isPySpace with
  | [] => none
  | c :: rest => some (c, rest)

/-- Trailing shell-prompt character classes dollar, percent, greater,
hash followed by optional whitespace. -/
def promptPat1 (l : List Char) : Bool :=
  match lastNonWs l with
  | some (c, _) => c == '$' || c == '%' || c == '>' || c == '#'
  | none => false

/-- Starship prompt glyph followed by optional whitespace. -/
def promptPat2 (l : List Char) : Bool :=
  match lastNonWs l with
  | some (c, _) => c == '❯'
  | none => false

/-- Oh-my-zsh arrow prompt glyph followed by optional whitespace. -/
def promptPat3 (l : List Char) : Bool :=
  match lastNonWs l with
  | some (c, _) => c == '➜'
  | none => false

/-- Tilde, then dot-star, then a prompt character, then optional trailing
whitespace: prompt character last, with a tilde before it on the same
line (dot does not cross a newline). -/
def promptPat4 (l : List Char) : Bool :=
  match lastNonWs l with
  | some (c, rest) =>
    (c == '$' || c == '%' || c == '>' || c == '#') &&
      (rest.takeWhile (fun d => d != '\n')).contains '~'
  | none => false

/-- _is_command_complete: any prompt pattern in the last 3 lines. -/
def is_command_complete (output : List String) : Bool :=
  if output.isEmpty then false
  else
    (output.drop (output.length - 3)).any (fun line =>
      promptPat1 line.toList || promptPat2 line.toList ||
      promptPat3 line.toList || promptPat4 line.toList)

/-- Terminal outcome of the polling loop: the iteration count at which it
stopped (elapsed time is iters * poll_interval under the idealized clock)
and the pane snapshot it returned. -/
inductive PollOutcome where
  | completed (iters : ℕ) (output : List String)
  | timedOut (iters : ℕ) (output : List String)
deriving DecidableEq

/-- The while elapsed < timeout loop of wait_for_completion: before
iteration k the elapsed time is k * interval; the loop body samples the
pane, tests for a prompt and otherwise sleeps. On exit a final snapshot is
captured without being tested. Fuel-structured; the fuel-0 case coincides
with the guard-false exit, and runPoll supplies enough fuel for every
positive interval. -/
def pollLoop (sample : ℕ → List String) (timeout interval : ℚ) :
    ℕ → ℕ → PollOutcome
  | 0, k => PollOutcome.timedOut k (sample k)
  | fuel + 1, k =>
    if (k : ℚ) * interval < timeout then
      if is_command_complete (sample k) then PollOutcome.completed k (sample k)
      else pollLoop sample timeout interval fuel (k + 1)
    else PollOutcome.timedOut k (sample k)

/-- Fuel bound for the polling loop: strictly more than timeout / interval
whenever interval is positive (interval is at least 1 / interval.den, so
after timeout.num * interval.den iterations the guard is false), and at
least 1 always. -/
def iterBound (timeout interval : ℚ) : ℕ :=
  timeout.num.natAbs * interval.den + 1

/-- The polling phase of wait_for_completion. -/
def runPoll (sample : ℕ → List String) (timeout interval : ℚ) : PollOutcome :=
  pollLoop sample timeout interval (iterBound timeout interval) 0

/-- A tmux window as seen by the agent: name, the visible content of each
pane, and its user options. -/
structure WindowM where
  name : String
  panes : List (List String)
  options : List (String × String)

/-- A tmux session: name, windows (the first one is the active window),
and its user options. -/
structure SessionM where
  name : String
  windows : List WindowM
  options : List (String × String)

/-- server.sessions.get(session_name=...): first session with the name. -/
def findSession (server : List SessionM) (n : String) : Option SessionM :=
  server.find? (fun s => s.name == n)

/-- session.windows.get(window_name=...). -/
def findWindow (s : SessionM) (n : String) : Option WindowM :=
  s.windows.find? (fun w => w.name == n)

/-- show_option on a target option list. -/
def getOpt (opts : List (String × String)) (k : String) : Option String :=
  (opts.find? (fun p => p.1 == k)).map (fun p => p.2)

/-- The part of the get_metadata result that wait_for_completion consumes:
the status discriminator and the task_type value. -/
structure MetadataResult where
  status : String
  task_type : Option String
deriving DecidableEq

/-- get_metadata: resolve the session, then the optional window, and read
the task_type user option from the target. -/
def get_metadata (server : List SessionM) (session_name : String)
    (window_name : Option String) : MetadataResult :=
  match findSession server session_name with
  | none => MetadataResult.mk "error" none
  | some s =>
    match window_name with
    | some wn =>
      match findWindow s wn with
      | none => MetadataResult.mk "error" none
      | some w => MetadataResult.mk "success" (getOpt w.options "@task_type")
    | none => MetadataResult.mk "success" (getOpt s.options "@task_type")

/-- Either a returned Python value or an uncaught exception terminating the
call. -/
inductive PyOutcome (α : Type) where
  | ok (v : α)
  | exn (msg : String)
deriving DecidableEq

/-- The envelope fields of wait_for_completion that the claims consult. -/
structure WaitResult where
  status : String
  output : List String
  message : Option String
  timed_out : Option Bool
deriving DecidableEq

/-- The guarded tail of wait_for_completion: bounds-checked pane access and
the polling loop (the pane content is static in this embedding, so every
sample returns it). -/
def waitOnPane (w : WindowM) (pane_index : ℕ) (timeout interval : ℚ)
    (timeoutNat : ℕ) : PyOutcome WaitResult :=
  if w.panes.length ≤ pane_index then
    PyOutcome.ok (WaitResult.mk "error" [] (some "Pane index out of range") none)
  else
    match w.panes.get? pane_index with
    | none => PyOutcome.exn "IndexError: list index out of range"
    | some p =>
      match runPoll (fun _ => p) timeout interval with
      | PollOutcome.completed _ out =>
        PyOutcome.ok (WaitResult.mk "completed" out none (some false))
      | PollOutcome.timedOut _ out =>
        PyOutcome.ok (WaitResult.mk "timeout" out
          (some ("Command still running after " ++ natRepr timeoutNat ++
            "s (check again later with \x27capture\x27 or \x27wait\x27)")) (some true))

/-- wait_for_completion: session lookup, the metadata short-circuit for
background and watcher tasks (whose pane indexing is not bounds-checked in
the source and raises IndexError), then the guarded window and pane
resolution and the polling loop. -/
def wait_for_completion (server : List SessionM) (session_name : String)
    (timeoutNat : ℕ) (interval : ℚ) (window_name : Option String)
    (pane_index : ℕ) (respect_metadata : Bool) : PyOutcome WaitResult :=
  let timeout : ℚ := timeoutNat
  match findSession server session_name with
  | none =>
    PyOutcome.ok (WaitResult.mk "error" []
      (some ("Session \x27" ++ session_name ++ "\x27 not found")) none)
  | some session =>
    let meta := get_metadata server session_name window_name
    if respect_metadata = true ∧ meta.status = "success" ∧
        (meta.task_type = some "background" ∨ meta.task_type = some "watcher") then
      -- short-circuit path: window lookup raises when absent, pane indexing
      -- raises when out of range (no bounds check in the source here)
      let wres : PyOutcome WindowM :=
        match window_name with
        | none =>
          match session.windows.head? with
          | some w => PyOutcome.ok w
          | none => PyOutcome.exn "ObjectDoesNotExist"
        | some wn =>
          match findWindow session wn with
          | some w => PyOutcome.ok w
          | none => PyOutcome.exn "ObjectDoesNotExist"
      match wres with
      | PyOutcome.exn m => PyOutcome.exn m
      | PyOutcome.ok w =>
        match w.panes.get? pane_index with
        | none => PyOutcome.exn "IndexError: list index out of range"
        | some p =>
          PyOutcome.ok (WaitResult.mk "running" p
            (some ("Task type \x27" ++ errorTypeStr meta.task_type ++
              "\x27 - not waiting for completion")) none)
    else
      match window_name with
      | some wn =>
        match findWindow session wn with
        | none =>
          PyOutcome.ok (WaitResult.mk "error" []
            (some ("Window \x27" ++ wn ++ "\x27 not found in session \x27" ++
              session_name ++ "\x27")) none)
        | some w => waitOnPane w pane_index timeout interval timeoutNat
      | none =>
        match session.windows.head? with
        | none => PyOutcome.exn "ObjectDoesNotExist"
        | some w => waitOnPane w pane_index timeout interval timeoutNat

/-- The context-window ranges in emission order: ranges of the matched
indices with already-seen ranges removed, mirroring the seen_ranges set of
the source loop. -/
def dedupNew (lines : List String) : List ℕ → List (ℕ × ℕ) → List (ℕ × ℕ)
  | [], _ => []
  | i :: rest, seen =>
    let r := rangeOf lines i
    if r ∈ seen then dedupNew lines rest seen
    else r :: dedupNew lines rest (r :: seen)

/-- The emission loop with the dedup factored out: fold the fresh ranges
into the accumulator with the separator rule of the source. -/
def renderFrom (lines : List String) : List String → List (ℕ × ℕ) → List String
  | acc, [] => acc
  | acc, r :: rs =>
    renderFrom lines
      ((if acc ≠ [] ∧ acc.getLast? ≠ some "..." then acc ++ ["...", ""] else acc) ++
        sliceOf lines r) rs

/-- Declarative separator rule between consecutive emitted windows: a
single placeholder line and one blank line, unless the previously emitted
line (prev) is itself the placeholder. -/
def sepTail (lines : List String) : Option String → List (ℕ × ℕ) → List String
  | _, [] => []
  | prev, r :: rs =>
    (if prev ≠ some "..." then ["...", ""] else []) ++ sliceOf lines r ++
      sepTail lines (sliceOf lines r).getLast? rs

/-- Declarative rendering of the deduplicated windows: the first window,
then every later window preceded by the separator rule. -/
def renderWindows (lines : List String) : List (ℕ × ℕ) → List String
  | [] => []
  | r :: rs => sliceOf lines r ++ sepTail lines (sliceOf lines r).getLast? rs

/-- Concrete transcript for the C1 witness. -/
def c1Lines : List String :=
  ["===TERM-AGENT-CMD-START=== aaaabbbbcccc 5 ls", "one", "two", "three"]

/-- Concrete error-free 50-line region for the C4 witness. -/
def c4Lines : List String := List.replicate 50 "ok"

/-- Concrete 40-line region whose only matching line is the traceback
header at index 15. -/
def c5Lines : List String :=
  (List.range 40).map
    (fun j => if j = 15 then "Traceback (most recent call last):" else "all good here")

/-- Pane content whose last line is an idle shell prompt. -/
def promptPane : List String := ["build ok", "", "user@host:~/proj$ "]

/-- Server state for C8: one session whose task_type is watcher, one
window with a single pane. -/
def c8World : List SessionM :=
  [SessionM.mk "work" [WindowM.mk "main" [["$ "]] []] [("@task_type", "watcher")]]

/-- Concrete region for the C3 counterexample: matches at indices 0 and 31
give the non-adjacent windows [0, 20) and [21, 32), and the last line of
the first window (index 19) is literally the placeholder text. -/
def c3Lines : List String :=
  (List.range 32).map
    (fun j =>
      if j = 0 then "Error: alpha"
      else if j = 19 then "..."
      else if j = 31 then "Error: beta"
      else "plain output")

/-- Concrete region for the C3 witness: a single match at index 0 of a
3-line region. -/
def c3SmallLines : List String := ["Error: boom", "aaa", "bbb"]

/-- The error-extraction label never collides with the label full. -/
theorem error_extraction_ne_full (t : String) : "error_extraction_" ++ t ≠ "full" := by
  intro hc
  have h := congrArg String.length hc
  rw [String.length_append] at h
  have h1 : "error_extraction_".length = 17 := rfl
  have h2 : "full".length = 4 := rfl
  omega

/-- The summarizer never reports the method full. -/
theorem smart_method_ne_full (lines : List String) :
    (smart_extract_output lines).method ≠ "full" := by
  unfold smart_extract_output
  rcases he : errorScan lines with ⟨idxs, ty⟩
  cases idxs with
  | nil =>
    show "first_last" ≠ "full"
    decide
  | cons i0 irest =>
    show "error_extraction_" ++ errorTypeStr ty ≠ "full"
    exact error_extraction_ne_full _

/-- The marker-search loop finds nothing when no line contains the
sentinel. -/
theorem findMarkerAux_eq_none (marker : String) (ls : List String) (i : ℕ)
    (h : ∀ l ∈ ls, occursIn marker.toList l.toList = false) :
    findMarkerAux marker ls i = none := by
  induction ls generalizing i with
  | nil => rfl
  | cons l rest ih =>
    rw [findMarkerAux, h l (List.mem_cons_self l rest)]
    simp only [Bool.false_eq_true, if_false]
    exact ih _ (fun x hx => h x (List.mem_cons_of_mem l hx))

/-- C9: when the transcript file does not exist, extraction returns the
distinct non-error result no_file (empty output, zero line count, not
truncated), independently of the requested marker and flags, before any
marker search. -/
theorem c9_no_file_result (marker_id : String) (max_lines : ℕ) (force_full : Bool) :
    read_output_from_marker none marker_id max_lines force_full =
      ExtractionResult.mk [] 0 "no_file" false none none none := rfl

/-- C6: when no transcript line contains the start sentinel with the given
marker id, extraction returns exactly the successful marker_not_found
result with empty output, zero line count and truncated = false. -/
theorem c6_marker_not_found (lines : List String) (marker_id : String)
    (max_lines : ℕ) (force_full : Bool)
    (h : ∀ l ∈ lines, occursIn (startMarkerStr marker_id).toList l.toList = false) :
    read_output_from_lines lines marker_id max_lines force_full =
      ExtractionResult.mk [] 0 "marker_not_found" false none none none := by
  unfold read_output_from_lines findMarker
  rw [findMarkerAux_eq_none _ _ _ h]

/-- Witness for C6 at a concrete transcript. -/
theorem c6_marker_not_found_witness :
    (∀ l ∈ ["hello", "world"],
      occursIn (startMarkerStr "abc123abc123").toList l.toList = false) ∧
    read_output_from_lines ["hello", "world"] "abc123abc123" 20 false =
      ExtractionResult.mk [] 0 "marker_not_found" false none none none :=
  ⟨by decide, c6_marker_not_found ["hello", "world"] "abc123abc123" 20 false (by decide)⟩

/-- C1: truncation law. With the marker present at line k and force_full
unset, a region longer than max_lines is truncated with a method other
than full; a region of at most max_lines lines is returned unchanged
(cleaned) with truncated = false and method full, whatever force_full is. -/
theorem c1_truncation_law (lines : List String) (marker_id : String)
    (max_lines : ℕ) (k : ℕ) (h : findMarker lines marker_id = some k) :
    (max_lines < (regionOf lines marker_id (k + 1)).length →
      (read_output_from_lines lines marker_id max_lines false).extraction_method ≠ "full" ∧
      (read_output_from_lines lines marker_id max_lines false).truncated = true) ∧
    (∀ force_full, (regionOf lines marker_id (k + 1)).length ≤ max_lines →
      (read_output_from_lines lines marker_id max_lines force_full).output =
        regionOf lines marker_id (k + 1) ∧
      (read_output_from_lines lines marker_id max_lines force_full).truncated = false ∧
      (read_output_from_lines lines marker_id max_lines force_full).extraction_method =
        "full") := by
  constructor
  · intro hgt
    unfold read_output_from_lines
    rw [h]
    simp only
    rw [if_neg (by simp; omega)]
    exact ⟨smart_method_ne_full _, rfl⟩
  · intro ff hle
    unfold read_output_from_lines
    rw [h]
    simp only
    rw [if_pos (Or.inr hle)]
    exact ⟨rfl, rfl, rfl⟩

/-- Witness for C1 at a concrete transcript: marker at index 0, a 3-line
region, threshold 2. -/
theorem c1_truncation_law_witness :
    findMarker c1Lines "aaaabbbbcccc" = some 0 ∧
    ((2 < (regionOf c1Lines "aaaabbbbcccc" 1).length →
      (read_output_from_lines c1Lines "aaaabbbbcccc" 2 false).extraction_method ≠ "full" ∧
      (read_output_from_lines c1Lines "aaaabbbbcccc" 2 false).truncated = true) ∧
    (∀ force_full, (regionOf c1Lines "aaaabbbbcccc" 1).length ≤ 2 →
      (read_output_from_lines c1Lines "aaaabbbbcccc" 2 force_full).output =
        regionOf c1Lines "aaaabbbbcccc" 1 ∧
      (read_output_from_lines c1Lines "aaaabbbbcccc" 2 force_full).truncated = false ∧
      (read_output_from_lines c1Lines "aaaabbbbcccc" 2 force_full).extraction_method =
        "full")) :=
  ⟨by decide, c1_truncation_law c1Lines "aaaabbbbcccc" 2 0 (by decide)⟩

/-- C4: on an error-free input the summarizer emits exactly the first 10
lines, a blank line, a placeholder citing total - 20 omitted lines, a
blank line and the final 10 lines, with method first_last; for a 50-line
region the placeholder cites 30 omitted lines and the tail is lines
40 to 49. -/
theorem c4_first_last_exactness (lines : List String)
    (h : (errorScan lines).1 = []) :
    smart_extract_output lines =
      SmartResult.mk
        (lines.take 10 ++ "" ::
          ("... (" ++ intRepr ((lines.length : ℤ) - 20) ++ " lines omitted) ...") ::
          "" :: lines.drop (lines.length - 10)) "first_last" ∧
    (lines.length = 50 →
      (smart_extract_output lines).lines =
        lines.take 10 ++ "" :: "... (30 lines omitted) ..." :: "" :: lines.drop 40) := by
  have hmain : smart_extract_output lines =
      SmartResult.mk
        (lines.take 10 ++ "" ::
          ("... (" ++ intRepr ((lines.length : ℤ) - 20) ++ " lines omitted) ...") ::
          "" :: lines.drop (lines.length - 10)) "first_last" := by
    unfold smart_extract_output
    rcases he : errorScan lines with ⟨idxs, ty⟩
    rw [he] at h
    simp only at h
    subst h
    rfl
  refine ⟨hmain, fun h50 => ?_⟩
  rw [hmain]
  simp only
  rw [h50]
  norm_num
  decide

/-- Witness for C4 at a concrete 50-line error-free region. -/
theorem c4_first_last_exactness_witness :
    (errorScan c4Lines).1 = [] ∧
    (smart_extract_output c4Lines =
      SmartResult.mk
        (c4Lines.take 10 ++ "" ::
          ("... (" ++ intRepr ((c4Lines.length : ℤ) - 20) ++ " lines omitted) ...") ::
          "" :: c4Lines.drop (c4Lines.length - 10)) "first_last" ∧
    (c4Lines.length = 50 →
      (smart_extract_output c4Lines).lines =
        c4Lines.take 10 ++ "" :: "... (30 lines omitted) ..." :: "" :: c4Lines.drop 40)) :=
  ⟨by decide, c4_first_last_exactness c4Lines (by decide)⟩

/-- Case-insensitive search makes the lowercase error pattern equivalent to
the earlier capitalized one. -/
theorem reSearchCI_error_eq (l : String) :
    reSearchCI "error:" l = reSearchCI "Error:" l := by
  have h : ("error:".toList.map toLow) = ("Error:".toList.map toLow) := by decide
  unfold reSearchCI
  rw [h]

/-- The per-line first-match label is never compilation_error: any line
matched by the lowercase error signature was already matched by the
capitalized one three positions earlier. -/
theorem lineMatch_ne_compilation (l : String) :
    lineMatch l ≠ some "compilation_error" := by
  intro hc
  unfold lineMatch at hc
  rcases hf : List.find? (fun p => p.1 l) error_patterns with _ | pair
  · rw [hf] at hc
    simp at hc
  · rw [hf] at hc
    simp only [Option.map_some', Option.some.injEq] at hc
    have hpl0 := List.find?_some hf
    have hpl : pair.1 l = true := by simpa using hpl0
    have hmem := List.mem_of_find?_eq_some hf
    have herr : reSearchCI "error:" l = true := by
      unfold error_patterns at hmem
      simp only [List.mem_cons, List.not_mem_nil, or_false] at hmem
      rcases hmem with h|h|h|h|h|h|h|h|h <;> subst h <;>
        first
          | exact hpl
          | (exact absurd hc (by decide))
    have hcap : reSearchCI "Error:" l = true := by
      rw [← reSearchCI_error_eq]
      exact herr
    unfold error_patterns at hf
    rcases h1 : reSearchCI "Traceback (most recent call last)" l with _ | _ <;>
      simp only [List.find?, h1, hcap] at hf <;>
      injection hf with hpair <;>
      rw [← hpair] at hc <;>
      exact absurd hc (by decide)

/-- The scan never changes an already-set error label. -/
theorem scanLoop_snd_some (ls : List String) (i : ℕ) (idxs : List ℕ) (t : String) :
    (scanLoop ls i idxs (some t)).2 = some t := by
  induction ls generalizing i idxs with
  | nil => rfl
  | cons l rest ih =>
    rw [scanLoop]
    cases hm : lineMatch l with
    | some u => simpa [hm] using ih _ _
    | none => simpa [hm] using ih _ _

/-- The label recorded by the scan is the first per-line match over the
whole input. -/
theorem scanLoop_snd_none (ls : List String) (i : ℕ) (idxs : List ℕ) :
    (scanLoop ls i idxs none).2 = ls.findSome? lineMatch := by
  induction ls generalizing i idxs with
  | nil => rfl
  | cons l rest ih =>
    rw [scanLoop, List.findSome?_cons]
    cases hm : lineMatch l with
    | some u => simpa [hm] using scanLoop_snd_some _ _ _ _
    | none => simpa [hm] using ih _ _

/-- error_type is the first signature matched by any line. -/
theorem errorScan_snd (lines : List String) :
    (errorScan lines).2 = lines.findSome? lineMatch :=
  scanLoop_snd_none lines 0 []

/-- C10: the compilation_error label is unreachable: the summarizer never
reports method error_extraction_compilation_error on any input, since the
case-insensitive capitalized Error: signature precedes the lowercase one
and matches every line the latter would. -/
theorem c10_compilation_error_unreachable (lines : List String) :
    (smart_extract_output lines).method ≠ "error_extraction_compilation_error" := by
  unfold smart_extract_output
  rcases he : errorScan lines with ⟨idxs, ty⟩
  cases idxs with
  | nil =>
    show "first_last" ≠ "error_extraction_compilation_error"
    decide
  | cons i0 irest =>
    show "error_extraction_" ++ errorTypeStr ty ≠ "error_extraction_compilation_error"
    intro hc
    have hrw : "error_extraction_compilation_error" =
        "error_extraction_" ++ "compilation_error" := rfl
    rw [hrw] at hc
    have hdata := congrArg String.data hc
    rw [String.data_append, String.data_append] at hdata
    have hty : errorTypeStr ty = "compilation_error" := by
      apply String.ext
      exact List.append_cancel_left hdata
    cases ty with
    | none => exact absurd hty (by decide)
    | some t =>
      have ht : t = "compilation_error" := hty
      subst ht
      have h2 : (errorScan lines).2 = some "compilation_error" := by rw [he]
      rw [errorScan_snd] at h2
      obtain ⟨l, _, hl⟩ := List.exists_of_findSome?_eq_some h2
      exact lineMatch_ne_compilation l hl

/-- Indices recorded by the scan: the seed indices plus every position
(counted from n) whose line matches some signature. -/
theorem scanLoop_fst_mem (ls : List String) (n : ℕ) (idxs : List ℕ)
    (ty : Option String) (i : ℕ) :
    i ∈ (scanLoop ls n idxs ty).1 ↔
      i ∈ idxs ∨ ∃ j l, ls[j]? = some l ∧ (lineMatch l).isSome = true ∧ i = n + j := by
  induction ls generalizing n idxs ty with
  | nil => simp [scanLoop]
  | cons l rest ih =>
    rw [scanLoop]
    have hsplit :
        (∃ j l', (l :: rest)[j]? = some l' ∧ (lineMatch l').isSome = true ∧ i = n + j) ↔
        (((lineMatch l).isSome = true ∧ i = n) ∨
          (∃ j l', rest[j]? = some l' ∧ (lineMatch l').isSome = true ∧ i = (n + 1) + j)) := by
      constructor
      · rintro ⟨j, l', hj, hs, rfl⟩
        cases j with
        | zero =>
          obtain rfl : l = l' := by simpa using hj
          exact Or.inl ⟨hs, rfl⟩
        | succ j =>
          exact Or.inr ⟨j, l', by simpa using hj, hs, by omega⟩
      · rintro (⟨hs, rfl⟩ | ⟨j, l', hj, hs, rfl⟩)
        · exact ⟨0, l, by simp, hs, by omega⟩
        · exact ⟨j + 1, l', by simpa using hj, hs, by omega⟩
    rw [hsplit]
    cases hm : lineMatch l with
    | some u =>
      rw [ih]
      simp only [hm, Option.isSome_some, true_and, List.mem_append,
        List.mem_singleton]
      tauto
    | none =>
      rw [ih]
      simp only [hm, Option.isSome_none, Bool.false_eq_true, false_and, false_or]

/-- A line index is recorded exactly when its line matches some signature. -/
theorem errorScan_fst_mem (lines : List String) (i : ℕ) :
    i ∈ (errorScan lines).1 ↔
      ∃ l, lines[i]? = some l ∧ (lineMatch l).isSome = true := by
  rw [errorScan, scanLoop_fst_mem]
  simp only [List.not_mem_nil, false_or, zero_add]
  constructor
  · rintro ⟨j, l, hj, hs, rfl⟩
    exact ⟨l, hj, hs⟩
  · rintro ⟨l, hi, hs⟩
    exact ⟨i, l, hi, hs, rfl⟩

/-- Recorded indices are valid positions of the input. -/
theorem errorScan_fst_lt (lines : List String) (i : ℕ)
    (h : i ∈ (errorScan lines).1) : i < lines.length := by
  obtain ⟨l, hl, _⟩ := (errorScan_fst_mem lines i).1 h
  exact (List.getElem?_eq_some.1 hl).1

/-- C5: the first signature matched by any line fixes the reported label
for the whole call, while every index matched by any signature is
recorded; on a 40-line region whose only matching line is a traceback
header at index 15, the method is error_extraction_python_traceback and
the output contains the content of index 15. -/
theorem c5_error_label_rule :
    (∀ lines : List String, (errorScan lines).2 = lines.findSome? lineMatch) ∧
    (∀ (lines : List String) (i : ℕ),
      i ∈ (errorScan lines).1 ↔
        ∃ l, lines[i]? = some l ∧ (lineMatch l).isSome = true) ∧
    (smart_extract_output c5Lines).method = "error_extraction_python_traceback" ∧
    "Traceback (most recent call last):" ∈ (smart_extract_output c5Lines).lines := by
  refine ⟨errorScan_snd, errorScan_fst_mem, ?_, ?_⟩ <;> decide

/-- The prompt pane is recognized as complete. -/
theorem promptPane_complete : is_command_complete promptPane = true := by decide

/-- One unfolding of the polling loop with fuel left. -/
theorem pollLoop_succ (sample : ℕ → List String) (timeout interval : ℚ)
    (fuel k : ℕ) :
    pollLoop sample timeout interval (fuel + 1) k =
      if (k : ℚ) * interval < timeout then
        if is_command_complete (sample k) then PollOutcome.completed k (sample k)
        else pollLoop sample timeout interval fuel (k + 1)
      else PollOutcome.timedOut k (sample k) := rfl

/-- When the guard fails the loop exits with timedOut whatever the fuel. -/
theorem pollLoop_guard_false (sample : ℕ → List String) (timeout interval : ℚ)
    (fuel k : ℕ) (h : ¬((k : ℚ) * interval < timeout)) :
    pollLoop sample timeout interval fuel k = PollOutcome.timedOut k (sample k) := by
  cases fuel with
  | zero => rfl
  | succ f => rw [pollLoop_succ, if_neg h]

/-- C2 counterexample: with timeout = 0 the guard elapsed < timeout is
compared before any sample is prompt-checked, so the poller returns
timedOut on a pane whose visible content matches a prompt pattern,
refuting the claim that such a pane always yields completed. -/
theorem c2_poller_counterexample :
    is_command_complete promptPane = true ∧
    runPoll (fun _ => promptPane) 0 (1 / 2) = PollOutcome.timedOut 0 promptPane := by
  refine ⟨promptPane_complete, ?_⟩
  rw [runPoll]
  apply pollLoop_guard_false
  norm_num

/-- C2 (amended): for every strictly positive timeout the first pane
sample is taken and prompt-checked before any timeout comparison can
exit, so a pane matching a prompt pattern on every sample makes the
poller return completed on the first sample. -/
theorem c2_poller_amended (sample : ℕ → List String) (timeout interval : ℚ)
    (hpos : 0 < timeout) (hall : ∀ k, is_command_complete (sample k) = true) :
    runPoll sample timeout interval = PollOutcome.completed 0 (sample 0) := by
  rw [runPoll, iterBound, pollLoop_succ]
  have hg : ((0 : ℕ) : ℚ) * interval < timeout := by
    simpa using hpos
  rw [if_pos hg, if_pos (hall 0)]

/-- Witness for the amended C2 at a concrete prompt-showing pane. -/
theorem c2_poller_amended_witness :
    (0 : ℚ) < 1 ∧ (∀ k : ℕ, is_command_complete ((fun _ => promptPane) k) = true) ∧
    runPoll (fun _ => promptPane) 1 (1 / 2) = PollOutcome.completed 0 promptPane :=
  ⟨by norm_num, fun _ => promptPane_complete,
    c2_poller_amended (fun _ => promptPane) 1 (1 / 2) (by norm_num)
      (fun _ => promptPane_complete)⟩

/-- C8 (code-bug evidence): on the metadata short-circuit path (task_type
watcher) the source indexes window.panes without a bounds check, so a
wait naming a missing pane index raises an uncaught IndexError instead of
returning the structured error envelope the spec requires. -/
theorem c8_short_circuit_index_error :
    wait_for_completion c8World "work" 30 (1 / 2) none 3 true =
      PyOutcome.exn "IndexError: list index out of range" := by
  decide

/-- Last element of an append with nonempty right part. -/
theorem getLast?_append_right (a b : List String) (hb : b ≠ []) :
    (a ++ b).getLast? = b.getLast? := by
  rw [List.getLast?_append, List.getLast?_eq_getLast b hb]
  rfl

/-- The seen-set loop equals the fold over the deduplicated ranges. -/
theorem errLoop_eq_renderFrom (lines : List String) (idxs : List ℕ)
    (seen : List (ℕ × ℕ)) (acc : List String) :
    errLoop lines idxs seen acc = renderFrom lines acc (dedupNew lines idxs seen) := by
  induction idxs generalizing seen acc with
  | nil => rfl
  | cons i rest ih =>
    rw [errLoop, dedupNew]
    simp only
    by_cases hr : rangeOf lines i ∈ seen
    · rw [if_pos hr, if_pos hr, ih]
    · rw [if_neg hr, if_neg hr, ih, renderFrom]

/-- Folding from a nonempty accumulator appends exactly the declarative
separator-joined windows. -/
theorem renderFrom_ne_nil_eq (lines : List String) (rs : List (ℕ × ℕ))
    (hne : ∀ r ∈ rs, sliceOf lines r ≠ []) :
    ∀ acc, acc ≠ [] →
      renderFrom lines acc rs = acc ++ sepTail lines acc.getLast? rs := by
  induction rs with
  | nil =>
    intro acc _
    simp [renderFrom, sepTail]
  | cons r rs ih =>
    intro acc hacc
    rw [renderFrom, sepTail]
    have hsr : sliceOf lines r ≠ [] := hne r (List.mem_cons_self _ _)
    have hnew :
        ((if acc ≠ [] ∧ acc.getLast? ≠ some "..." then acc ++ ["...", ""] else acc) ++
          sliceOf lines r) ≠ [] := by
      simp [hsr]
    rw [ih (fun x hx => hne x (List.mem_cons_of_mem _ hx)) _ hnew,
      getLast?_append_right _ _ hsr]
    by_cases hdots : acc.getLast? = some "..."
    · rw [if_neg (by simp [hdots]), if_neg (by simp [hdots])]
      simp [List.append_assoc]
    · rw [if_pos ⟨hacc, hdots⟩, if_pos hdots]
      simp [List.append_assoc]

/-- Folding from the empty accumulator renders the deduplicated windows. -/
theorem renderFrom_nil_acc (lines : List String) (rs : List (ℕ × ℕ))
    (hne : ∀ r ∈ rs, sliceOf lines r ≠ []) :
    renderFrom lines [] rs = renderWindows lines rs := by
  cases rs with
  | nil => rfl
  | cons r rs =>
    rw [renderFrom, renderWindows]
    simp only [ne_eq, not_true_eq_false, false_and, if_false, List.nil_append]
    exact renderFrom_ne_nil_eq lines rs
      (fun x hx => hne x (List.mem_cons_of_mem _ hx)) _
      (hne r (List.mem_cons_self _ _))

/-- A range is emitted exactly when it is the range of some matched index
and was not already seen. -/
theorem dedupNew_mem (lines : List String) (idxs : List ℕ) (seen : List (ℕ × ℕ))
    (r : ℕ × ℕ) :
    r ∈ dedupNew lines idxs seen ↔ r ∈ idxs.map (rangeOf lines) ∧ r ∉ seen := by
  induction idxs generalizing seen with
  | nil => simp [dedupNew]
  | cons i rest ih =>
    rw [dedupNew]
    by_cases hr : rangeOf lines i ∈ seen
    · rw [if_pos hr, ih]
      simp only [List.map_cons, List.mem_cons]
      constructor
      · rintro ⟨h1, h2⟩
        exact ⟨Or.inr h1, h2⟩
      · rintro ⟨h1 | h1, h2⟩
        · subst h1
          exact absurd hr h2
        · exact ⟨h1, h2⟩
    · rw [if_neg hr]
      simp only [List.mem_cons, ih, List.map_cons]
      constructor
      · rintro (rfl | ⟨h1, h2⟩)
        · exact ⟨Or.inl rfl, hr⟩
        · exact ⟨Or.inr h1, fun hc => h2 (Or.inr hc)⟩
      · rintro ⟨h1 | h1, h2⟩
        · exact Or.inl h1
        · by_cases hri : r = rangeOf lines i
          · exact Or.inl hri
          · refine Or.inr ⟨h1, ?_⟩
            intro hc
            rcases hc with hc1 | hc1
            · exact hri hc1
            · exact h2 hc1

/-- Each distinct range is emitted only once. -/
theorem dedupNew_nodup (lines : List String) (idxs : List ℕ) (seen : List (ℕ × ℕ)) :
    (dedupNew lines idxs seen).Nodup := by
  induction idxs generalizing seen with
  | nil => simp [dedupNew]
  | cons i rest ih =>
    rw [dedupNew]
    by_cases hr : rangeOf lines i ∈ seen
    · rw [if_pos hr]
      exact ih _
    · rw [if_neg hr]
      refine List.nodup_cons.2 ⟨?_, ih _⟩
      intro hc
      exact ((dedupNew_mem lines rest _ _).1 hc).2 (List.mem_cons_self _ _)

/-- The window of a valid matched index contains that line. -/
theorem sliceOf_range_getElem (lines : List String) (i : ℕ) (h : i < lines.length) :
    (sliceOf lines (rangeOf lines i))[i - (i - 10)]? = lines[i]? := by
  have hmin : i < min lines.length (i + 20) := lt_min h (by omega)
  unfold sliceOf rangeOf
  simp only
  rw [List.getElem?_take_of_lt (by omega), List.getElem?_drop]
  congr 1
  omega

/-- The matched line is an element of its context window. -/
theorem sliceOf_range_mem (lines : List String) (i : ℕ) (h : i < lines.length) :
    ∃ l, lines[i]? = some l ∧ l ∈ sliceOf lines (rangeOf lines i) := by
  refine ⟨lines[i], List.getElem?_eq_getElem h, ?_⟩
  have hs := sliceOf_range_getElem lines i h
  rw [List.getElem?_eq_getElem h] at hs
  exact List.getElem?_mem hs

/-- The context window of a valid matched index is nonempty. -/
theorem sliceOf_range_ne_nil (lines : List String) (i : ℕ) (h : i < lines.length) :
    sliceOf lines (rangeOf lines i) ≠ [] := by
  intro hc
  obtain ⟨l, _, hmem⟩ := sliceOf_range_mem lines i h
  rw [hc] at hmem
  exact List.not_mem_nil _ hmem

/-- Every listed window occurs contiguously in the separator-joined tail. -/
theorem sepTail_mem_occurs (lines : List String) :
    ∀ (rs : List (ℕ × ℕ)) (r : ℕ × ℕ), r ∈ rs →
      ∀ prev, sliceOf lines r <:+: sepTail lines prev rs := by
  intro rs
  induction rs with
  | nil =>
    intro r hr
    cases hr
  | cons r0 rs ih =>
    intro r hr prev
    rw [sepTail]
    rcases List.mem_cons.1 hr with rfl | hmem
    · exact ⟨if prev ≠ some "..." then ["...", ""] else [],
        sepTail lines (sliceOf lines r).getLast? rs, by simp [List.append_assoc]⟩
    · have hstep : sepTail lines (sliceOf lines r0).getLast? rs <:+:
          (if prev ≠ some "..." then ["...", ""] else []) ++ sliceOf lines r0 ++
            sepTail lines (sliceOf lines r0).getLast? rs :=
        ⟨(if prev ≠ some "..." then ["...", ""] else []) ++ sliceOf lines r0, [],
          by simp [List.append_assoc]⟩
      exact (ih r hmem ((sliceOf lines r0).getLast?)).trans hstep

/-- Every listed window occurs contiguously in the rendered windows. -/
theorem renderWindows_mem_occurs (lines : List String) (rs : List (ℕ × ℕ))
    (r : ℕ × ℕ) (hr : r ∈ rs) :
    sliceOf lines r <:+: renderWindows lines rs := by
  cases rs with
  | nil => cases hr
  | cons r0 rs =>
    rw [renderWindows]
    rcases List.mem_cons.1 hr with rfl | hmem
    · exact ⟨[], sepTail lines (sliceOf lines r).getLast? rs, by simp⟩
    · have hstep : sepTail lines (sliceOf lines r0).getLast? rs <:+:
          sliceOf lines r0 ++ sepTail lines (sliceOf lines r0).getLast? rs :=
        ⟨sliceOf lines r0, [], by simp⟩
      exact (sepTail_mem_occurs lines rs r hmem ((sliceOf lines r0).getLast?)).trans hstep

/-- When the scan records at least one index, the label is set. -/
theorem errorScan_ty_some (lines : List String) (i0 : ℕ) (irest : List ℕ)
    (ty : Option String) (h : errorScan lines = (i0 :: irest, ty)) :
    ∃ t, ty = some t := by
  cases hty : ty with
  | some t => exact ⟨t, rfl⟩
  | none =>
    exfalso
    have h2 : (errorScan lines).2 = ty := by rw [h]
    rw [errorScan_snd, hty] at h2
    have hi0 : i0 ∈ (errorScan lines).1 := by
      rw [h]
      exact List.mem_cons_self _ _
    obtain ⟨l, hl, hs⟩ := (errorScan_fst_mem lines i0).1 hi0
    have hnone := (List.findSome?_eq_none_iff.1 h2) l (List.getElem?_mem hl)
    rw [hnone] at hs
    simp at hs

/-- C3 (amended): on the error path the output is exactly the
separator-joined deduplicated context windows followed by the closure
tail; each distinct window is emitted once; every matched index
contributes a window with at most 10 preceding lines and at most 20
following lines that contains the matched line and occurs contiguously in
the output; consecutive windows are separated by the placeholder and a
blank line unless the previously emitted line is itself the placeholder;
the method is error_extraction_ followed by the recorded label. -/
theorem c3_error_extraction_shape (lines : List String) (i0 : ℕ) (irest : List ℕ)
    (ty : Option String) (h : errorScan lines = (i0 :: irest, ty)) :
    (∃ t, ty = some t ∧ (smart_extract_output lines).method = "error_extraction_" ++ t) ∧
    (dedupNew lines (i0 :: irest) []).Nodup ∧
    (∀ r, r ∈ dedupNew lines (i0 :: irest) [] ↔ r ∈ (i0 :: irest).map (rangeOf lines)) ∧
    (smart_extract_output lines).lines =
      renderWindows lines (dedupNew lines (i0 :: irest) []) ++
        (if 20 < lines.length - (i0 :: irest).getLast (List.cons_ne_nil i0 irest) then
          "..." :: "" :: lines.drop (lines.length - 5)
        else []) ∧
    (∀ i ∈ i0 :: irest,
      (rangeOf lines i).1 ≤ i ∧ i < (rangeOf lines i).2 ∧
      i - (rangeOf lines i).1 ≤ 10 ∧ (rangeOf lines i).2 - (i + 1) ≤ 20 ∧
      (∃ l, lines[i]? = some l ∧ l ∈ sliceOf lines (rangeOf lines i)) ∧
      sliceOf lines (rangeOf lines i) <:+: (smart_extract_output lines).lines) := by
  have hvalid : ∀ i ∈ i0 :: irest, i < lines.length := by
    intro i hi
    exact errorScan_fst_lt lines i (by rw [h]; exact hi)
  have hne : ∀ r ∈ dedupNew lines (i0 :: irest) [], sliceOf lines r ≠ [] := by
    intro r hrr
    obtain ⟨hmap, _⟩ := (dedupNew_mem lines _ _ _).1 hrr
    obtain ⟨i, hi, rfl⟩ := List.mem_map.1 hmap
    exact sliceOf_range_ne_nil lines i (hvalid i hi)
  have hbase : errLoop lines (i0 :: irest) [] [] =
      renderWindows lines (dedupNew lines (i0 :: irest) []) := by
    rw [errLoop_eq_renderFrom]
    exact renderFrom_nil_acc lines _ hne
  have hsm : smart_extract_output lines =
      SmartResult.mk
        (if 20 < lines.length - (i0 :: irest).getLast (List.cons_ne_nil i0 irest) then
          errLoop lines (i0 :: irest) [] [] ++ "..." :: "" :: lines.drop (lines.length - 5)
        else errLoop lines (i0 :: irest) [] [])
        ("error_extraction_" ++ errorTypeStr ty) := by
    unfold smart_extract_output
    rw [h]
  obtain ⟨t, hty⟩ := errorScan_ty_some lines i0 irest ty h
  have hlines_eq : (smart_extract_output lines).lines =
      renderWindows lines (dedupNew lines (i0 :: irest) []) ++
        (if 20 < lines.length - (i0 :: irest).getLast (List.cons_ne_nil i0 irest) then
          "..." :: "" :: lines.drop (lines.length - 5)
        else []) := by
    rw [hsm]
    by_cases hc : 20 < lines.length - (i0 :: irest).getLast (List.cons_ne_nil i0 irest)
    · rw [if_pos hc, if_pos hc, hbase]
    · rw [if_neg hc, if_neg hc, hbase, List.append_nil]
  refine ⟨⟨t, hty, ?_⟩, dedupNew_nodup _ _ _, ?_, hlines_eq, ?_⟩
  · rw [hsm, hty]
    rfl
  · intro r
    rw [dedupNew_mem]
    simp
  · intro i hi
    have hlt := hvalid i hi
    have hr1 : (rangeOf lines i).1 = i - 10 := rfl
    have hr2 : (rangeOf lines i).2 = min lines.length (i + 20) := rfl
    have hminle : min lines.length (i + 20) ≤ i + 20 := min_le_right _ _
    have hminlt : i < min lines.length (i + 20) := lt_min hlt (by omega)
    refine ⟨?_, ?_, ?_, ?_, sliceOf_range_mem lines i hlt, ?_⟩
    · rw [hr1]; omega
    · rw [hr2]; exact hminlt
    · rw [hr1]; omega
    · rw [hr2]; omega
    · rw [hlines_eq]
      have hinf : sliceOf lines (rangeOf lines i) <:+:
          renderWindows lines (dedupNew lines (i0 :: irest) []) := by
        apply renderWindows_mem_occurs
        rw [dedupNew_mem]
        exact ⟨List.mem_map_of_mem _ hi, List.not_mem_nil _⟩
      exact hinf.trans ⟨[], _, rfl⟩

/-- C3 counterexample: two non-adjacent windows, [0, 20) and [21, 32), are
both emitted, but because the last line of the first window is itself the
placeholder text, the source inserts no separator at all: the output is
the two windows laid end to end, and in particular contains no blank
line, while the claim requires a blank separator line between
non-adjacent windows. -/
theorem c3_separator_counterexample :
    errorScan c3Lines = ([0, 31], some "generic_error") ∧
    rangeOf c3Lines 0 = (0, 20) ∧
    rangeOf c3Lines 31 = (21, 32) ∧
    (smart_extract_output c3Lines).lines = c3Lines.take 20 ++ c3Lines.drop 21 ∧
    "" ∉ (smart_extract_output c3Lines).lines := by
  refine ⟨by decide, by decide, by decide, by decide, by decide⟩

/-- Witness for the amended C3 at a concrete one-match region. -/
theorem c3_error_extraction_shape_witness :
    errorScan c3SmallLines = ([0], some "generic_error") ∧
    ((∃ t, some "generic_error" = some t ∧
        (smart_extract_output c3SmallLines).method = "error_extraction_" ++ t) ∧
    (dedupNew c3SmallLines [0] []).Nodup ∧
    (∀ r, r ∈ dedupNew c3SmallLines [0] [] ↔ r ∈ [0].map (rangeOf c3SmallLines)) ∧
    (smart_extract_output c3SmallLines).lines =
      renderWindows c3SmallLines (dedupNew c3SmallLines [0] []) ++
        (if 20 < c3SmallLines.length - [0].getLast (List.cons_ne_nil 0 []) then
          "..." :: "" :: c3SmallLines.drop (c3SmallLines.length - 5)
        else []) ∧
    (∀ i ∈ [0],
      (rangeOf c3SmallLines i).1 ≤ i ∧ i < (rangeOf c3SmallLines i).2 ∧
      i - (rangeOf c3SmallLines i).1 ≤ 10 ∧ (rangeOf c3SmallLines i).2 - (i + 1) ≤ 20 ∧
      (∃ l, c3SmallLines[i]? = some l ∧ l ∈ sliceOf c3SmallLines (rangeOf c3SmallLines i)) ∧
      sliceOf c3SmallLines (rangeOf c3SmallLines i) <:+:
        (smart_extract_output c3SmallLines).lines)) :=
  ⟨by decide, c3_error_extraction_shape c3SmallLines 0 [] (some "generic_error") (by decide)⟩

/-- String append at the character level. -/
theorem string_toList_append (s t : String) : (s ++ t).toList = s.toList ++ t.toList := rfl

/-- Splitting a nonempty stream yields at least one line. -/
theorem splitLines_ne_nil (cs : List Char) (h : cs ≠ []) : splitLines cs ≠ [] := by
  cases cs with
  | nil => exact absurd rfl h
  | cons c rest =>
    rw [splitLines]
    by_cases hc : c = '\n'
    · rw [if_pos hc]
      exact List.cons_ne_nil _ _
    · rw [if_neg hc]
      cases hsp : splitLines rest with
      | nil => exact List.cons_ne_nil _ _
      | cons l ls => exact List.cons_ne_nil _ _

/-- No produced line contains a newline. -/
theorem splitLines_no_newline (cs : List Char) :
    ∀ l ∈ splitLines cs, '\n' ∉ l := by
  induction cs with
  | nil =>
    intro l hl
    cases hl
  | cons c rest ih =>
    intro l hl
    rw [splitLines] at hl
    by_cases hc : c = '\n'
    · rw [if_pos hc] at hl
      rcases List.mem_cons.1 hl with rfl | hmem
      · exact List.not_mem_nil _
      · exact ih l hmem
    · rw [if_neg hc] at hl
      cases hsp : splitLines rest with
      | nil =>
        rw [hsp] at hl
        rcases List.mem_cons.1 hl with rfl | hmem
        · intro hin
          rw [List.mem_singleton] at hin
          exact hc hin.symm
        · cases hmem
      | cons l0 ls =>
        rw [hsp] at hl
        rcases List.mem_cons.1 hl with rfl | hmem
        · intro hin
          rcases List.mem_cons.1 hin with h1 | h1
          · exact hc h1.symm
          · exact ih l0 (by rw [hsp]; exact List.mem_cons_self _ _) h1
        · exact ih l (by rw [hsp]; exact List.mem_cons_of_mem _ hmem)

/-- The first produced line is a prefix of the stream. -/
theorem splitLines_head_prefix (cs : List Char) :
    ∀ l ls, splitLines cs = l :: ls → l <+: cs := by
  induction cs with
  | nil =>
    intro l ls h
    cases h
  | cons c rest ih =>
    intro l ls h
    rw [splitLines] at h
    by_cases hc : c = '\n'
    · rw [if_pos hc] at h
      injection h with h1 h2
      subst h1
      exact List.nil_prefix
    · rw [if_neg hc] at h
      cases hsp : splitLines rest with
      | nil =>
        rw [hsp] at h
        injection h with h1 h2
        subst h1
        exact ⟨rest, rfl⟩
      | cons l0 ls0 =>
        rw [hsp] at h
        injection h with h1 h2
        subst h1
        obtain ⟨t, ht⟩ := ih l0 ls0 hsp
        exact ⟨t, by rw [List.cons_append, ht]⟩

/-- A newline-free prefix of a stream ending in a newline is a prefix of
the part before the newline. -/
theorem prefix_drop_newline (l xs : List Char) (hpre : l <+: xs ++ ['\n'])
    (hnl : '\n' ∉ l) : l <+: xs := by
  have hlen : l.length ≤ xs.length := by
    rcases hpre with ⟨t, ht⟩
    by_cases hte : t = []
    · subst hte
      rw [List.append_nil] at ht
      exfalso
      exact hnl (ht ▸ (by simp))
    · have hlens := congrArg List.length ht
      simp at hlens
      have ht1 : 1 ≤ t.length := List.length_pos.2 hte
      omega
  have h1 := List.prefix_iff_eq_take.1 hpre
  rw [List.take_append_of_le_length hlen] at h1
  rw [h1]
  exact List.take_prefix _ _

/-- Every line of a newline-terminated stream occurs inside the stream
body. -/
theorem splitLines_newline_mem_occurs (xs : List Char) :
    ∀ l ∈ splitLines (xs ++ ['\n']), l <:+: xs := by
  induction xs with
  | nil =>
    intro l hl
    simp [splitLines] at hl
    subst hl
    exact ⟨[], [], rfl⟩
  | cons c rest ih =>
    intro l hl
    rw [List.cons_append, splitLines] at hl
    by_cases hc : c = '\n'
    · rw [if_pos hc] at hl
      rcases List.mem_cons.1 hl with rfl | hmem
      · exact ⟨[], c :: rest, rfl⟩
      · exact (ih l hmem).trans ⟨[c], [], by simp⟩
    · rw [if_neg hc] at hl
      cases hsp : splitLines (rest ++ ['\n']) with
      | nil => exact absurd hsp (splitLines_ne_nil _ (by simp))
      | cons l0 ls0 =>
        rw [hsp] at hl
        rcases List.mem_cons.1 hl with rfl | hmem
        · have hp := splitLines_head_prefix (rest ++ ['\n']) l0 ls0 hsp
          have hnl : '\n' ∉ l0 :=
            splitLines_no_newline _ l0 (by rw [hsp]; exact List.mem_cons_self _ _)
          obtain ⟨t, ht⟩ := prefix_drop_newline l0 rest hp hnl
          exact ⟨[], t, by rw [List.nil_append, List.cons_append, ht]⟩
        · exact (ih l (by rw [hsp]; exact List.mem_cons_of_mem _ hmem)).trans
            ⟨[c], [], by simp⟩

/-- Splitting distributes over a newline boundary. -/
theorem splitLines_append (xs ys : List Char) :
    splitLines (xs ++ '\n' :: ys) =
      splitLines (xs ++ ['\n']) ++ splitLines ys := by
  induction xs with
  | nil => simp [splitLines]
  | cons c rest ih =>
    rw [List.cons_append, List.cons_append, splitLines, splitLines]
    by_cases hc : c = '\n'
    · rw [if_pos hc, if_pos hc, ih]
      rfl
    · rw [if_neg hc, if_neg hc, ih]
      cases hsp : splitLines (rest ++ ['\n']) with
      | nil => exact absurd hsp (splitLines_ne_nil _ (by simp))
      | cons l0 ls0 => rfl

/-- A newline-free stream followed by a newline is exactly one line. -/
theorem splitLines_line (m : List Char) (h : '\n' ∉ m) :
    splitLines (m ++ ['\n']) = [m] := by
  induction m with
  | nil => rfl
  | cons c rest ih =>
    rw [List.cons_append, splitLines]
    have hc : ¬c = '\n' := fun hcc => h (by rw [hcc]; exact List.mem_cons_self _ _)
    rw [if_neg hc, ih (fun hm => h (List.mem_cons_of_mem _ hm))]

/-- The Python substring test agrees with list infixes. -/
theorem occursIn_iff (sub l : List Char) : occursIn sub l = true ↔ sub <:+: l := by
  induction l with
  | nil =>
    rw [occursIn, List.isEmpty_iff, List.infix_nil]
  | cons c rest ih =>
    rw [occursIn, Bool.or_eq_true, ih, List.isPrefixOf_iff_prefix]
    exact (List.infix_cons_iff).symm

/-- The marker-search loop finds the final line when it alone contains the
sentinel. -/
theorem findMarkerAux_append_last (marker : String) (A : List String) (y : String)
    (i : ℕ) (hA : ∀ x ∈ A, occursIn marker.toList x.toList = false)
    (hy : occursIn marker.toList y.toList = true) :
    findMarkerAux marker (A ++ [y]) i = some (i + A.length) := by
  induction A generalizing i with
  | nil =>
    rw [List.nil_append, findMarkerAux, if_pos hy]
    simp
  | cons a A ih =>
    rw [List.cons_append, findMarkerAux, hA a (List.mem_cons_self _ _)]
    simp only [Bool.false_eq_true, if_false]
    rw [ih _ (fun x hx => hA x (List.mem_cons_of_mem _ hx))]
    congr 1
    simp
    omega

/-- Digit characters are never newlines. -/
theorem digChar_ne_newline (d : ℕ) : digChar d ≠ '\n' := by
  unfold digChar
  split_ifs <;> decide

/-- Decimal representations contain no newline. -/
theorem natDigitsAux_no_newline (fuel n : ℕ) : '\n' ∉ natDigitsAux fuel n := by
  induction fuel generalizing n with
  | zero => exact List.not_mem_nil _
  | succ f ih =>
    rw [natDigitsAux]
    by_cases h : n < 10
    · rw [if_pos h]
      intro hm
      rw [List.mem_singleton] at hm
      exact digChar_ne_newline n hm.symm
    · rw [if_neg h]
      intro hm
      rcases List.mem_append.1 hm with h1 | h1
      · exact ih _ h1
      · rw [List.mem_singleton] at h1
        exact digChar_ne_newline _ h1.symm

/-- Python str() of a timestamp contains no newline. -/
theorem natRepr_no_newline (n : ℕ) : '\n' ∉ (natRepr n).toList :=
  natDigitsAux_no_newline _ _

/-- C7: round trip. Writing a marker (fresh id, newline-free id and
command) and immediately extracting with the returned id, with no
intervening appends, yields an empty region: empty output, zero line
count, not truncated — for every prior transcript state, timestamp,
threshold and force_full flag. -/
theorem c7_round_trip (old marker_id : String) (timestamp : ℕ) (command : String)
    (max_lines : ℕ) (force_full : Bool)
    (hfresh : occursIn (startMarkerStr marker_id).toList old.toList = false)
    (hmid : '\n' ∉ marker_id.toList) (hcmd : '\n' ∉ command.toList) :
    (read_output_from_marker (some (write_command_marker old marker_id timestamp command))
        marker_id max_lines force_full).output = [] ∧
    (read_output_from_marker (some (write_command_marker old marker_id timestamp command))
        marker_id max_lines force_full).line_count = 0 ∧
    (read_output_from_marker (some (write_command_marker old marker_id timestamp command))
        marker_id max_lines force_full).truncated = false := by
  set core : List Char :=
    (startMarkerStr marker_id).toList ++ ' ' :: (natRepr timestamp).toList ++
      ' ' :: command.toList with hcore
  have hstart_toList : (startMarkerStr marker_id).toList =
      "===TERM-AGENT-CMD-START=== ".toList ++ marker_id.toList := by
    rw [startMarkerStr, string_toList_append]
  have hcorenl : '\n' ∉ core := by
    intro hm
    rw [hcore, hstart_toList] at hm
    simp only [List.mem_append, List.mem_cons, or_assoc] at hm
    rcases hm with h | h | h | h | h | h
    · exact absurd h (by decide)
    · exact hmid h
    · exact absurd h (by decide)
    · exact natRepr_no_newline timestamp h
    · exact absurd h (by decide)
    · exact hcmd h
  have hnl1 : ("\n" : String).toList = ['\n'] := rfl
  have hsp1 : (" " : String).toList = [' '] := rfl
  have hlist : (write_command_marker old marker_id timestamp command).toList =
      old.toList ++ '\n' :: (core ++ ['\n']) := by
    rw [hcore, write_command_marker]
    simp only [string_toList_append, hnl1, hsp1]
    simp [List.append_assoc]
  have hsplit : pyReadLines (write_command_marker old marker_id timestamp command) =
      (splitLines (old.toList ++ ['\n'])).map String.mk ++ [String.mk core] := by
    rw [pyReadLines, hlist, splitLines_append, splitLines_line core hcorenl]
    simp
  have hfound : findMarker
      (pyReadLines (write_command_marker old marker_id timestamp command)) marker_id =
      some ((splitLines (old.toList ++ ['\n'])).map String.mk).length := by
    rw [hsplit, findMarker]
    rw [findMarkerAux_append_last]
    · simp
    · intro x hx
      obtain ⟨l, hl, rfl⟩ := List.mem_map.1 hx
      show occursIn (startMarkerStr marker_id).toList l = false
      cases hob : occursIn (startMarkerStr marker_id).toList l with
      | false => rfl
      | true =>
        exfalso
        have hinf := (occursIn_iff _ _).1 hob
        have hinf2 : l <:+: old.toList := splitLines_newline_mem_occurs old.toList l hl
        have hocc : occursIn (startMarkerStr marker_id).toList old.toList = true :=
          (occursIn_iff _ _).2 (hinf.trans hinf2)
        rw [hocc] at hfresh
        exact absurd hfresh (by decide)
    · show occursIn (startMarkerStr marker_id).toList core = true
      apply (occursIn_iff _ _).2
      apply List.IsPrefix.isInfix
      rw [hcore]
      exact (List.prefix_append _ _).trans (List.prefix_append _ _)
  have hlen : (pyReadLines (write_command_marker old marker_id timestamp command)).length =
      ((splitLines (old.toList ++ ['\n'])).map String.mk).length + 1 := by
    rw [hsplit]
    simp
  have hregion : regionOf
      (pyReadLines (write_command_marker old marker_id timestamp command)) marker_id
      (((splitLines (old.toList ++ ['\n'])).map String.mk).length + 1) = [] := by
    rw [regionOf, ← hlen, List.drop_length]
    rfl
  have hread : read_output_from_marker
      (some (write_command_marker old marker_id timestamp command)) marker_id max_lines
      force_full =
      read_output_from_lines
        (pyReadLines (write_command_marker old marker_id timestamp command)) marker_id
        max_lines force_full := rfl
  rw [hread, read_output_from_lines, hfound]
  simp only [hregion, List.length_nil]
  rw [if_pos (Or.inr (Nat.zero_le max_lines))]
  exact ⟨rfl, rfl, rfl⟩

/-- Witness for C7 at a concrete transcript, marker id, timestamp and
command. -/
theorem c7_round_trip_witness :
    occursIn (startMarkerStr "aaaabbbbcccc").toList ("hello\nworld" : String).toList =
      false ∧
    '\n' ∉ ("aaaabbbbcccc" : String).toList ∧
    '\n' ∉ ("ls -la" : String).toList ∧
    ((read_output_from_marker
        (some (write_command_marker "hello\nworld" "aaaabbbbcccc" 5 "ls -la"))
        "aaaabbbbcccc" 20 false).output = [] ∧
      (read_output_from_marker
        (some (write_command_marker "hello\nworld" "aaaabbbbcccc" 5 "ls -la"))
        "aaaabbbbcccc" 20 false).line_count = 0 ∧
      (read_output_from_marker
        (some (write_command_marker "hello\nworld" "aaaabbbbcccc" 5 "ls -la"))
        "aaaabbbbcccc" 20 false).truncated = false) :=
  ⟨by decide, by decide, by decide,
    c7_round_trip "hello\nworld" "aaaabbbbcccc" 5 "ls -la" 20 false
      (by decide) (by decide) (by decide)⟩
